import Mathlib

/-!
# Verification of the pdf-workdesk core helpers

A shallow embedding of the pure logic of `src/utils/helpers.py`:

* the page-range parser `parse_page_numbers`,
* the hex-color conversion `hex_to_rgba`,
* the watermark tiling loop `draw_watermark_grid` (modelled by the list of
  tile origins it visits),
* the watermark merge `merge_watermark_into_pdf`,
* the page dispatch of `extract_text` / `extract_images`.

Python strings are modelled as `List Char`; fallible Python code (functions
that may raise `ValueError` / `IndexError`) returns `Option`.  The Python
string primitives used by the source (`str.split`, `str.strip`,
`str.lstrip`, `int(·)`, `int(·, 16)`, `range`, slicing, negative indexing,
`dict` update) are embedded below with their CPython semantics restricted
to ASCII input.
-/

set_option autoImplicit false

namespace PdfWorkdesk

/-- ASCII whitespace characters stripped by Python's `str.strip()`:
space, tab, newline, carriage return, vertical tab, form feed. -/
def isPySpace (c : Char) : Bool :=
  c.toNat = 32 || c.toNat = 9 || c.toNat = 10 || c.toNat = 13 ||
    c.toNat = 11 || c.toNat = 12

/-- Python `str.strip()`: drop whitespace from both ends. -/
def pyStrip (l : List Char) : List Char :=
  ((l.dropWhile isPySpace).reverse.dropWhile isPySpace).reverse

/-- Python `str.split(sep)` for a one-character separator: splits at every
occurrence of `sep`, keeping empty parts; `"".split(sep) = [""]`. -/
def pySplit (sep : Char) : List Char → List (List Char)
  | [] => [[]]
  | c :: cs =>
    if c = sep then [] :: pySplit sep cs
    else (pySplit sep cs).modifyHead (fun t => c :: t)

/-- `c` is an ASCII decimal digit. -/
def isDigP (c : Char) : Prop :=
  48 ≤ c.toNat ∧ c.toNat ≤ 57

instance decIsDigP (c : Char) : Decidable (isDigP c) :=
  inferInstanceAs (Decidable (48 ≤ c.toNat ∧ c.toNat ≤ 57))

/-- `c` is an ASCII hexadecimal digit (`0-9`, `a-f`, `A-F`). -/
def isHexP (c : Char) : Prop :=
  (48 ≤ c.toNat ∧ c.toNat ≤ 57) ∨ (97 ≤ c.toNat ∧ c.toNat ≤ 102) ∨
    (65 ≤ c.toNat ∧ c.toNat ≤ 70)

instance decIsHexP (c : Char) : Decidable (isHexP c) :=
  inferInstanceAs (Decidable ((48 ≤ c.toNat ∧ c.toNat ≤ 57) ∨
    (97 ≤ c.toNat ∧ c.toNat ≤ 102) ∨ (65 ≤ c.toNat ∧ c.toNat ≤ 70)))

/-- Value of a hexadecimal digit character. -/
def hexVal (c : Char) : Nat :=
  if c.toNat ≤ 57 then c.toNat - 48
  else if 97 ≤ c.toNat then c.toNat - 87
  else c.toNat - 55

/-- Digit run of a Python decimal integer literal: digits with single
underscores allowed between digits (`int("1_0") = 10`), accumulator form. -/
def pyDigitsCore (acc : Nat) : List Char → Option Nat
  | [] => some acc
  | c :: cs =>
    if isDigP c then pyDigitsCore (acc * 10 + (c.toNat - 48)) cs
    else if c = '_' then
      match cs with
      | d :: cs2 =>
        if isDigP d then pyDigitsCore (acc * 10 + (d.toNat - 48)) cs2 else none
      | [] => none
    else none

/-- Nonempty decimal digit run (underscores between digits allowed). -/
def pyDigits? : List Char → Option Nat
  | [] => none
  | c :: cs => if isDigP c then pyDigitsCore (c.toNat - 48) cs else none

/-- Python `int(s)` on an already-stripped string: optional sign, then a
nonempty digit run. -/
def pyIntNoWs? : List Char → Option Int
  | [] => none
  | c :: rest =>
    if c = '+' then (pyDigits? rest).map Int.ofNat
    else if c = '-' then (pyDigits? rest).map (fun n => -(n : Int))
    else (pyDigits? (c :: rest)).map Int.ofNat

/-- Python `int(s)`: strip whitespace, optional sign, decimal digits.
`none` models the `ValueError` raised on malformed input. -/
def pyInt? (l : List Char) : Option Int :=
  pyIntNoWs? (pyStrip l)

/-- Hexadecimal digit run with single underscores between digits,
accumulator form. -/
def pyHexDigitsCore (acc : Nat) : List Char → Option Nat
  | [] => some acc
  | c :: cs =>
    if isHexP c then pyHexDigitsCore (acc * 16 + hexVal c) cs
    else if c = '_' then
      match cs with
      | d :: cs2 =>
        if isHexP d then pyHexDigitsCore (acc * 16 + hexVal d) cs2 else none
      | [] => none
    else none

/-- Nonempty hexadecimal digit run (underscores between digits allowed). -/
def pyHexDigits? : List Char → Option Nat
  | [] => none
  | c :: cs => if isHexP c then pyHexDigitsCore (hexVal c) cs else none

/-- Magnitude part of Python `int(s, 16)` after the sign: an optional
`0x` / `0X` prefix (an underscore may follow the prefix), then hex digits. -/
def pyHexAfterSign? : List Char → Option Nat
  | c :: x :: rest =>
    if c = '0' ∧ (x = 'x' ∨ x = 'X') then
      match rest with
      | r :: rest2 => if r = '_' then pyHexDigits? rest2 else pyHexDigits? (r :: rest2)
      | [] => none
    else pyHexDigits? (c :: x :: rest)
  | l => pyHexDigits? l

/-- Python `int(s, 16)` on an already-stripped string. -/
def pyHex16NoWs? : List Char → Option Int
  | [] => none
  | c :: rest =>
    if c = '+' then (pyHexAfterSign? rest).map Int.ofNat
    else if c = '-' then (pyHexAfterSign? rest).map (fun n => -(n : Int))
    else (pyHexAfterSign? (c :: rest)).map Int.ofNat

/-- Python `int(s, 16)`: strip whitespace, optional sign, optional `0x`
prefix, hex digits.  `none` models the `ValueError` on malformed input. -/
def pyIntBase16? (l : List Char) : Option Int :=
  pyHex16NoWs? (pyStrip l)

/-- Python `range(start, stop, step)` for a positive step, as the list
`[start, start + step, ...)` of values `< stop`. -/
def pyRangeStep (start stop : Int) (step : Nat) : List Int :=
  (List.range ((stop - start + step - 1).toNat / step)).map
    (fun k : Nat => start + ((step * k : Nat) : Int))

/-- One token of `parse_page_numbers` (`helpers.py:269-279`): strip the
part; if it contains a hyphen, split on hyphens, require exactly two
integer halves and expand `range(start, end + 1)`; otherwise parse it as a
single integer. -/
def parseToken (tok : List Char) : Option (List Int) :=
  let part := pyStrip tok
  if '-' ∈ part then
    match pySplit '-' part with
    | [u, v] => do
      let a ← pyInt? u
      let b ← pyInt? v
      pure (pyRangeStep a (b + 1) 1)
    | _ => none
  else (pyInt? part).map (fun n => [n])

/-- The accumulation loop of `parse_page_numbers`: parse the comma-separated
parts in order, concatenating expansions; the first bad token aborts the
whole call (Python raises out of the loop). -/
def collectTokens : List (List Char) → Option (List Int)
  | [] => some []
  | t :: ts => do
    let v ← parseToken t
    let vs ← collectTokens ts
    pure (v ++ vs)

/-- `parse_page_numbers` (`helpers.py:260-281`): split the input on commas,
expand every token, then subtract one from every collected value.
`none` models the exception propagated to the caller. -/
def parse_page_numbers (s : String) : Option (List Int) :=
  (collectTokens (pySplit ',' s.data)).map (fun l => l.map (fun i => i - 1))

/-- Python list slicing `l[i : i + n]` with nonnegative bounds: shorter or
empty when the list runs out, never an error. -/
def pySlice (l : List Char) (i n : Nat) : List Char :=
  (l.drop i).take n

/-- Python `str.lstrip("#")`: drop every leading `#`. -/
def pyLstripHash (l : List Char) : List Char :=
  l.dropWhile (fun c => c = '#')

/-- `hex_to_rgba` (`helpers.py:466-477`): strip leading `#`s, then parse the
slices `[0:2]`, `[2:4]`, `[4:6]` as base-16 integers and divide each by 255.
Channel arithmetic is modelled exactly over `ℚ`.  `none` models the
`ValueError` raised when a slice is not a base-16 integer. -/
def hex_to_rgba (s : String) : Option (ℚ × ℚ × ℚ) :=
  let h := pyLstripHash s.data
  do
    let r ← pyIntBase16? (pySlice h 0 2)
    let g ← pyIntBase16? (pySlice h 2 2)
    let b ← pyIntBase16? (pySlice h 4 2)
    pure ((r : ℚ) / 255, (g : ℚ) / 255, (b : ℚ) / 255)

/-- `draw_watermark_grid` (`helpers.py:480-503`), modelled by the list of
tile origins `(x, y)` the loop translates to (the canvas side effects —
save, rotate 45°, draw the label, restore — are external library calls and
carry no further logic).  `width` and `height` are the already-truncated
`int(width)`, `int(height)` of the Python floats. -/
def draw_watermark_grid (step_x step_y : Nat) (width height : Int) :
    List (Int × Int) :=
  (pyRangeStep (-100) (width + 100) step_x).flatMap
    (fun x => (pyRangeStep (-100) (height + 100) step_y).map (fun y => (x, y)))

/-- The tile origins drawn by `create_watermark_canvas`
(`helpers.py:530-557`): steps 150 × 100 on a letter-sized page
(612 × 792 points). -/
def create_watermark_canvas_grid : List (Int × Int) :=
  draw_watermark_grid 150 100 612 792

/-- Modelled from the spec: pypdf's `page.merge_page(other, over)` primitive
(external library, not in `src/`).  A page is its stack of content layers,
bottom first; per the spec the merge "must place the original content layer
over the watermark, i.e. watermark is always painted first / kept in the
background", so `over = false` prepends the other page's content below the
existing content. -/
def merge_page {α : Type} (base other : List α) (over : Bool) : List α :=
  if over then base ++ other else other ++ base

/-- `merge_watermark_into_pdf` (`helpers.py:506-527`): take the first page
of the watermark document (`none` models the `IndexError` when it has no
pages) and merge it under every page of the target, collecting the pages in
order into the output document. -/
def merge_watermark_into_pdf {α : Type} (pdf : List (List α))
    (watermark : List (List α)) : Option (List (List α)) :=
  match watermark with
  | [] => none
  | w0 :: _ => some (pdf.map (fun page => merge_page page w0 false))

/-- Text of one page: a page is modelled as its pair of extraction results
`(plain, layout)`; `page.extract_text(extraction_mode=mode)` selects one. -/
def pageText (mode : String) (p : String × String) : String :=
  if mode = "layout" then p.2 else p.1

/-- The `"all"` branch of `extract_text`: fold over every page in order. -/
def allText (pages : List (String × String)) (mode : String) : String :=
  pages.foldl (fun t p => t ++ " " ++ pageText mode p) ""

/-- Python sequence indexing `l[i]`: negative indices count from the end;
`none` models the `IndexError` when out of range. -/
def pyIndex {α : Type} (l : List α) (i : Int) : Option α :=
  let j := if i < 0 then i + l.length else i
  if 0 ≤ j then l.get? j.toNat else none

/-- The non-`"all"` branch of `extract_text`: fold over the parsed indices;
note the source calls `reader.pages[page].extract_text()` with the default
mode there, i.e. the plain text (`helpers.py:297`). -/
def textFromIndices (pages : List (String × String)) (idxs : List Int) :
    Option String :=
  idxs.foldlM (fun t i => (pyIndex pages i).map (fun p => t ++ " " ++ p.1)) ""

/-- `extract_text` (`helpers.py:284-299`) with the page-range parser as an
explicit parameter, so that which branch consults the parser is visible in
the statement of the dispatch theorem. -/
def extract_textWith (parse : String → Option (List Int))
    (pages : List (String × String)) (spec mode : String) : Option String :=
  if spec = "all" then some (allText pages mode)
  else (parse spec).bind (textFromIndices pages)

/-- `extract_text` as in the source: the parser is `parse_page_numbers`. -/
def extract_text (pages : List (String × String)) (spec mode : String) :
    Option String :=
  extract_textWith parse_page_numbers pages spec mode

/-- Python `dict` insertion `d[k] = v` on an insertion-ordered association
list: update the value in place when the key exists, else append. -/
def dictInsertPair (d : List (String × String)) (kv : String × String) :
    List (String × String) :=
  if d.any (fun p => p.1 = kv.1) then
    d.map (fun p => if p.1 = kv.1 then (p.1, kv.2) else p)
  else d ++ [kv]

/-- Python `dict.update` / `|=` with the pairs of one page's images
(`{image.data: image.name}`): later pairs win, key order is first
occurrence. -/
def dictUpdate (d : List (String × String)) (new : List (String × String)) :
    List (String × String) :=
  new.foldl dictInsertPair d

/-- The `"all"` branch of `extract_images`: merge every page's image dict
in order.  A page is modelled as its list of `(data, name)` pairs. -/
def allImages (pages : List (List (String × String))) :
    List (String × String) :=
  pages.foldl dictUpdate []

/-- The non-`"all"` branch of `extract_images`: merge the image dicts of the
pages selected by the parsed indices. -/
def imagesFromIndices (pages : List (List (String × String)))
    (idxs : List Int) : Option (List (String × String)) :=
  idxs.foldlM (fun d i => (pyIndex pages i).map (dictUpdate d)) []

/-- `extract_images` (`helpers.py:302-315`) with the page-range parser as an
explicit parameter. -/
def extract_imagesWith (parse : String → Option (List Int))
    (pages : List (List (String × String))) (spec : String) :
    Option (List (String × String)) :=
  if spec = "all" then some (allImages pages)
  else (parse spec).bind (imagesFromIndices pages)

/-- `extract_images` as in the source. -/
def extract_images (pages : List (List (String × String))) (spec : String) :
    Option (List (String × String)) :=
  extract_imagesWith parse_page_numbers pages spec

/-- Decimal value of a digit string (most significant digit first). -/
def natVal (l : List Char) : Nat :=
  l.foldl (fun a c => a * 10 + (c.toNat - 48)) 0

/-- A nonempty run of ASCII decimal digits: the spec's "base-10 integer
literal". -/
def isDigitRun (l : List Char) : Bool :=
  !l.isEmpty && l.all (fun c => 48 ≤ c.toNat && c.toNat ≤ 57)

/-- Follows the spec's words (§4.1 input constraints), for the refinement
statement: a token, after trimming, must be a single integer literal `≥ 1`,
or two such separated by a single hyphen with the first `≤` the second. -/
def specValidToken (tok : List Char) : Bool :=
  match pySplit '-' (pyStrip tok) with
  | [u, v] => isDigitRun u && isDigitRun v &&
      decide (1 ≤ natVal u) && decide (natVal u ≤ natVal v)
  | [w] => isDigitRun w && decide (1 ≤ natVal w)
  | _ => false

/-- Follows the spec's words (§4.1 algorithm), for the refinement
statement: a range token contributes every integer of `[start, end]`
ascending, each minus one; a single token contributes its value minus
one. -/
def specTokenIndices (tok : List Char) : List Int :=
  match pySplit '-' (pyStrip tok) with
  | [u, v] =>
    (pyRangeStep (natVal u : Int) ((natVal v : Int) + 1) 1).map (fun i => i - 1)
  | [w] => [(natVal w : Int) - 1]
  | _ => []

/-- Follows the spec's words (§4.1): split on commas, expand each token in
token order, concatenating the expansions. -/
def specParse (s : String) : List Int :=
  ((pySplit ',' s.data).map specTokenIndices).flatten

/-- A malformed token in the sense of the spec's failure clause: empty
after trimming, more than one hyphen, non-numeric as a single value, or
non-numeric on either side of its hyphen. -/
def badToken (tok : List Char) : Bool :=
  let p := pyStrip tok
  p.isEmpty || decide (1 < p.count '-') ||
    (decide ('-' ∉ p) && (pyInt? p).isNone) ||
    (decide ('-' ∈ p) && (pySplit '-' p).any (fun u => (pyInt? u).isNone))

/-- A syntactically well-formed token: a single Python integer, or exactly
two Python integers separated by one hyphen (no magnitude restriction). -/
def goodToken (tok : List Char) : Bool :=
  let p := pyStrip tok
  if '-' ∈ p then
    match pySplit '-' p with
    | [u, v] => (pyInt? u).isSome && (pyInt? v).isSome
    | _ => false
  else (pyInt? p).isSome

/-- Sanity checks matching the spec's testable properties: the parser on
the documented examples. -/
theorem parse_page_numbers_examples :
    parse_page_numbers "2" = some [1] ∧
    parse_page_numbers "1-3" = some [0, 1, 2] ∧
    parse_page_numbers "2,4" = some [1, 3] ∧
    parse_page_numbers " 2 , 4 " = some [1, 3] ∧
    parse_page_numbers "1-2-3" = none :=
  ⟨by decide, by decide, by decide, by decide, by decide⟩

/-- Evaluation rule for `hex_to_rgba` in terms of the three parsed slices:
lets concrete instances be settled at the `Int` stage, where kernel
evaluation works, before any rational normalization. -/
theorem hex_to_rgba_eq (s : String) (r g b : Int)
    (h1 : pyIntBase16? (pySlice (pyLstripHash s.data) 0 2) = some r)
    (h2 : pyIntBase16? (pySlice (pyLstripHash s.data) 2 2) = some g)
    (h3 : pyIntBase16? (pySlice (pyLstripHash s.data) 4 2) = some b) :
    hex_to_rgba s = some ((r : ℚ) / 255, (g : ℚ) / 255, (b : ℚ) / 255) := by
  simp only [hex_to_rgba]
  rw [h1, h2, h3]
  rfl

/-! ## Helper lemmas about the embedded Python primitives -/

theorem pySplit_ne_nil (sep : Char) (l : List Char) : pySplit sep l ≠ [] := by
  induction l with
  | nil => simp [pySplit]
  | cons c cs ih =>
    simp only [pySplit]
    split
    · simp
    · rcases hr : pySplit sep cs with _ | ⟨t, ts⟩
      · exact absurd hr ih
      · simp

theorem pySplit_length (sep : Char) (l : List Char) :
    (pySplit sep l).length = l.count sep + 1 := by
  induction l with
  | nil => simp [pySplit]
  | cons c cs ih =>
    simp only [pySplit]
    split
    · rename_i h
      subst h
      simp [List.count_cons, ih]
    · rename_i h
      rcases hr : pySplit sep cs with _ | ⟨t, ts⟩
      · exact absurd hr (pySplit_ne_nil sep cs)
      · rw [hr] at ih
        simp only [List.modifyHead, List.length_cons]
        simp only [List.length_cons] at ih
        have hcc : c ≠ sep := h
        simp [List.count_cons, hcc, ih]

theorem pySplit_no_sep {sep : Char} {l : List Char} (h : sep ∉ l) :
    pySplit sep l = [l] := by
  induction l with
  | nil => rfl
  | cons c cs ih =>
    simp only [pySplit]
    have hcs : ¬(c = sep) := fun he => h (by rw [← he]; exact List.mem_cons_self c cs)
    rw [if_neg hcs, ih (fun hm => h (List.mem_cons_of_mem c hm))]
    rfl

theorem pySplit_eq_singleton {sep : Char} {l w : List Char}
    (h : pySplit sep l = [w]) : l = w := by
  have hlen := pySplit_length sep l
  rw [h] at hlen
  have hcount : l.count sep = 0 := by simpa using hlen.symm
  have hmem : sep ∉ l := by
    intro hm
    have := List.count_pos_iff.mpr hm
    omega
  rw [pySplit_no_sep hmem] at h
  injection h

theorem mem_of_pySplit_pair {sep : Char} {l u v : List Char}
    (h : pySplit sep l = [u, v]) : sep ∈ l := by
  have hlen := pySplit_length sep l
  rw [h] at hlen
  have : 0 < l.count sep := by simp at hlen; omega
  exact List.count_pos_iff.mp this

theorem length_dropWhile_le (p : Char → Bool) (l : List Char) :
    (l.dropWhile p).length ≤ l.length := by
  induction l with
  | nil => simp
  | cons c cs ih =>
    rw [List.dropWhile_cons]
    split
    · exact Nat.le_succ_of_le ih
    · simp

theorem dropWhile_eq_self_of_forall {p : Char → Bool} {l : List Char}
    (h : ∀ c ∈ l, p c = false) : l.dropWhile p = l := by
  cases l with
  | nil => rfl
  | cons c cs => rw [List.dropWhile_cons, h c (List.mem_cons_self c cs)]; simp

theorem pyStrip_eq_self {l : List Char} (h : ∀ c ∈ l, isPySpace c = false) :
    pyStrip l = l := by
  unfold pyStrip
  rw [dropWhile_eq_self_of_forall h]
  rw [dropWhile_eq_self_of_forall (fun c hc => h c (List.mem_reverse.mp hc))]
  exact List.reverse_reverse l

theorem pyStrip_length_le (l : List Char) : (pyStrip l).length ≤ l.length := by
  unfold pyStrip
  calc ((l.dropWhile isPySpace).reverse.dropWhile isPySpace).reverse.length
      = ((l.dropWhile isPySpace).reverse.dropWhile isPySpace).length := by
        simp
    _ ≤ (l.dropWhile isPySpace).reverse.length := length_dropWhile_le _ _
    _ = (l.dropWhile isPySpace).length := by simp
    _ ≤ l.length := length_dropWhile_le _ _

theorem digit_char_ne {c : Char} (h : isDigP c) {b : Char}
    (hb : ¬ isDigP b) : c ≠ b :=
  fun he => hb (he ▸ h)

theorem digit_not_space {c : Char} (h : isDigP c) : isPySpace c = false := by
  obtain ⟨h1, h2⟩ := h
  simp only [isPySpace, Bool.or_eq_false_iff, decide_eq_false_iff_not]
  omega

theorem pyDigitsCore_all_digits :
    ∀ (l : List Char) (acc : Nat), (∀ c ∈ l, isDigP c) →
      pyDigitsCore acc l =
        some (l.foldl (fun a c => a * 10 + (c.toNat - 48)) acc) := by
  intro l
  induction l with
  | nil => intro acc _; rfl
  | cons c cs ih =>
    intro acc h
    have hstep : pyDigitsCore acc (c :: cs) =
        pyDigitsCore (acc * 10 + (c.toNat - 48)) cs := by
      rw [pyDigitsCore.eq_def]
      simp [h c (List.mem_cons_self c cs)]
    rw [hstep, List.foldl_cons]
    exact ih _ (fun d hd => h d (List.mem_cons_of_mem c hd))

theorem pyDigits?_all_digits {l : List Char} (hne : l ≠ [])
    (h : ∀ c ∈ l, isDigP c) : pyDigits? l = some (natVal l) := by
  rcases l with _ | ⟨c, cs⟩
  · exact absurd rfl hne
  rw [pyDigits?.eq_def]
  simp only [if_pos (h c (List.mem_cons_self c cs))]
  rw [pyDigitsCore_all_digits cs _ (fun d hd => h d (List.mem_cons_of_mem c hd))]
  simp [natVal]

theorem pyInt?_digits {l : List Char} (hne : l ≠ [])
    (h : ∀ c ∈ l, isDigP c) : pyInt? l = some ((natVal l : Nat) : Int) := by
  unfold pyInt?
  rw [pyStrip_eq_self (fun c hc => digit_not_space (h c hc))]
  rcases l with _ | ⟨c, cs⟩
  · exact absurd rfl hne
  have hc := h c (List.mem_cons_self c cs)
  simp only [pyIntNoWs?]
  rw [if_neg (digit_char_ne hc (by decide)), if_neg (digit_char_ne hc (by decide))]
  rw [pyDigits?_all_digits (by simp) h]
  rfl

theorem mem_pyRangeStep {s e : Int} {step : Nat} {x : Int} :
    x ∈ pyRangeStep s e step ↔
      ∃ k : Nat, k < (e - s + step - 1).toNat / step ∧
        x = s + ((step * k : Nat) : Int) := by
  unfold pyRangeStep
  constructor
  · intro hx
    rcases List.mem_map.mp hx with ⟨k, hk, hfk⟩
    exact ⟨k, List.mem_range.mp hk, hfk.symm⟩
  · rintro ⟨k, hk, rfl⟩
    exact List.mem_map.mpr ⟨k, List.mem_range.mpr hk, rfl⟩

theorem pyRangeStep_nil {s e : Int} {step : Nat} (hstep : 0 < step)
    (h : e ≤ s) : pyRangeStep s e step = [] := by
  unfold pyRangeStep
  have hz : (e - s + step - 1).toNat / step = 0 := Nat.div_eq_of_lt (by omega)
  rw [hz]
  rfl

theorem isDigitRun_iff {l : List Char} :
    isDigitRun l = true ↔ l ≠ [] ∧ ∀ c ∈ l, isDigP c := by
  simp [isDigitRun, List.all_eq_true, isDigP, List.isEmpty_iff]

theorem hyphen_not_mem_of_digits {l : List Char} (h : ∀ c ∈ l, isDigP c) :
    '-' ∉ l :=
  fun hm => absurd (h '-' hm) (by decide)

/-- A token passing the spec's validity check parses to a value list whose
decremented form is exactly the spec's expansion of the token. -/
theorem parseToken_spec {tok : List Char} (h : specValidToken tok = true) :
    ∃ raw, parseToken tok = some raw ∧
      raw.map (fun i => i - 1) = specTokenIndices tok := by
  unfold specValidToken at h
  rcases hsp : pySplit '-' (pyStrip tok) with _ | ⟨u, rest⟩
  · exact absurd hsp (pySplit_ne_nil _ _)
  rcases rest with _ | ⟨v, rest2⟩
  · -- a single token `[u]`
    rw [hsp] at h
    simp only [Bool.and_eq_true, decide_eq_true_eq] at h
    obtain ⟨hrun, h1⟩ := h
    obtain ⟨une, udig⟩ := isDigitRun_iff.mp hrun
    have hp : pyStrip tok = u := pySplit_eq_singleton hsp
    have hnm : '-' ∉ pyStrip tok := hp ▸ hyphen_not_mem_of_digits udig
    refine ⟨[((natVal u : Nat) : Int)], ?_, ?_⟩
    · simp only [parseToken]
      rw [if_neg hnm, hp, pyInt?_digits une udig]
      rfl
    · unfold specTokenIndices
      rw [hsp]
      rfl
  rcases rest2 with _ | ⟨w2, rest3⟩
  · -- a range token `[u, v]`
    rw [hsp] at h
    simp only [Bool.and_eq_true, decide_eq_true_eq] at h
    obtain ⟨⟨⟨hrunu, hrunv⟩, h1⟩, h2⟩ := h
    obtain ⟨une, udig⟩ := isDigitRun_iff.mp hrunu
    obtain ⟨vne, vdig⟩ := isDigitRun_iff.mp hrunv
    have hmem : '-' ∈ pyStrip tok := mem_of_pySplit_pair hsp
    refine ⟨pyRangeStep (natVal u : Int) ((natVal v : Int) + 1) 1, ?_, ?_⟩
    · simp only [parseToken]
      rw [if_pos hmem, hsp]
      simp [pyInt?_digits une udig, pyInt?_digits vne vdig]
    · unfold specTokenIndices
      rw [hsp]
  · -- three or more hyphen-separated parts: the validity check is `false`
    rw [hsp] at h
    simp at h

theorem collectTokens_spec {parts : List (List Char)}
    (h : ∀ tok ∈ parts, specValidToken tok = true) :
    ∃ L, collectTokens parts = some L ∧
      L.map (fun i => i - 1) = (parts.map specTokenIndices).flatten := by
  induction parts with
  | nil => exact ⟨[], rfl, rfl⟩
  | cons t ts ih =>
    obtain ⟨raw, hraw, hmap⟩ := parseToken_spec (h t (List.mem_cons_self t ts))
    obtain ⟨L, hL, hLmap⟩ := ih (fun tok hm => h tok (List.mem_cons_of_mem t hm))
    refine ⟨raw ++ L, ?_, ?_⟩
    · simp [collectTokens, hraw, hL]
    · simp [List.map_append, hmap, hLmap]

theorem collectTokens_none {parts : List (List Char)} {tok : List Char}
    (hm : tok ∈ parts) (hn : parseToken tok = none) :
    collectTokens parts = none := by
  induction parts with
  | nil => cases hm
  | cons t ts ih =>
    rcases List.mem_cons.mp hm with rfl | hm2
    · simp [collectTokens, hn]
    · cases hpt : parseToken t <;> simp [collectTokens, hpt, ih hm2]

theorem collectTokens_isSome {parts : List (List Char)}
    (h : ∀ tok ∈ parts, (parseToken tok).isSome = true) :
    (collectTokens parts).isSome = true := by
  induction parts with
  | nil => rfl
  | cons t ts ih =>
    obtain ⟨raw, hraw⟩ := Option.isSome_iff_exists.mp
      (h t (List.mem_cons_self t ts))
    have hts := ih (fun tok hm => h tok (List.mem_cons_of_mem t hm))
    obtain ⟨L, hL⟩ := Option.isSome_iff_exists.mp hts
    simp [collectTokens, hraw, hL]

/-- A token failing the malformedness check in `badToken` makes
`parseToken` fail. -/
theorem parseToken_bad {tok : List Char} (h : badToken tok = true) :
    parseToken tok = none := by
  unfold badToken at h
  simp only [Bool.or_eq_true, Bool.and_eq_true, decide_eq_true_eq,
    List.isEmpty_iff, Option.isNone_iff_eq_none, List.any_eq_true] at h
  rcases h with ((hemp | hcnt) | ⟨hnm, hint⟩) | ⟨hm, u, hu, hun⟩
  · -- empty after trimming
    simp only [parseToken]
    rw [hemp]
    rfl
  · -- more than one hyphen: the 2-tuple unpacking fails
    have hmem : '-' ∈ pyStrip tok := by
      have := pySplit_length '-' (pyStrip tok)
      exact List.count_pos_iff.mp (by omega)
    simp only [parseToken]
    rw [if_pos hmem]
    have hlen := pySplit_length '-' (pyStrip tok)
    rcases hsp : pySplit '-' (pyStrip tok) with _ | ⟨a, _ | ⟨b, _ | ⟨c, r⟩⟩⟩
    · exact absurd hsp (pySplit_ne_nil _ _)
    · exfalso
      rw [hsp, List.length_cons, List.length_nil] at hlen
      omega
    · exfalso
      rw [hsp, List.length_cons, List.length_cons, List.length_nil] at hlen
      omega
    · rfl
  · -- a single non-numeric token
    simp only [parseToken]
    rw [if_neg hnm, hint]
    rfl
  · -- a range with a non-numeric half
    simp only [parseToken]
    rw [if_pos hm]
    rcases hsp : pySplit '-' (pyStrip tok) with _ | ⟨a, _ | ⟨b, _ | ⟨c, r⟩⟩⟩
    · exact absurd hsp (pySplit_ne_nil _ _)
    · rfl
    · rw [hsp] at hu
      rcases List.mem_cons.mp hu with rfl | hu2
      · simp [hun]
      · rcases List.mem_cons.mp hu2 with rfl | hu3
        · cases hpa : pyInt? a <;> simp [hpa, hun]
        · cases hu3
    · rfl

/-- A token passing the well-formedness check in `goodToken` makes
`parseToken` succeed. -/
theorem parseToken_good {tok : List Char} (h : goodToken tok = true) :
    (parseToken tok).isSome = true := by
  unfold goodToken at h
  by_cases hm : '-' ∈ pyStrip tok
  · rw [if_pos hm] at h
    simp only [parseToken]
    rw [if_pos hm]
    rcases hsp : pySplit '-' (pyStrip tok) with _ | ⟨a, _ | ⟨b, _ | ⟨c, r⟩⟩⟩ <;>
      rw [hsp] at h
    · exact absurd hsp (pySplit_ne_nil _ _)
    · simp at h
    · simp only [Bool.and_eq_true] at h
      obtain ⟨va, hva⟩ := Option.isSome_iff_exists.mp h.1
      obtain ⟨vb, hvb⟩ := Option.isSome_iff_exists.mp h.2
      simp [hva, hvb]
    · simp at h
  · rw [if_neg hm] at h
    simp only [parseToken]
    rw [if_neg hm]
    obtain ⟨v, hv⟩ := Option.isSome_iff_exists.mp h
    simp [hv]

/-! ## Claim theorems: the page-range parser -/

/-- C4: for every valid page-range spec string (every comma-separated
token, after trimming, is a single integer literal `≥ 1` or an ascending
hyphenated range of two such literals), the parser splits on commas, trims
each token, expands each hyphenated token into every integer of the
inclusive range in ascending order, takes single tokens as one integer,
subtracts one from every value, preserves token order and keeps duplicates
— that is, it returns exactly the spec-side expansion `specParse`; in
particular `parse "1-3,5" = [0, 1, 2, 4]`. -/
theorem parse_page_numbers_follows_spec :
    (∀ s : String, (∀ tok ∈ pySplit ',' s.data, specValidToken tok = true) →
      parse_page_numbers s = some (specParse s)) ∧
    parse_page_numbers "1-3,5" = some [0, 1, 2, 4] := by
  constructor
  · intro s hv
    obtain ⟨L, hL, hmap⟩ := collectTokens_spec hv
    unfold parse_page_numbers specParse
    rw [hL]
    simpa using hmap
  · decide

theorem parse_page_numbers_follows_spec_witness :
    (∀ tok ∈ pySplit ',' (" 2 , 4-6 " : String).data,
      specValidToken tok = true) ∧
    parse_page_numbers " 2 , 4-6 " = some (specParse " 2 , 4-6 ") :=
  ⟨by decide, parse_page_numbers_follows_spec.1 " 2 , 4-6 " (by decide)⟩

/-- C6: for every input string that is empty, or has a token that is empty
after trimming, non-numeric (as a single value or on either side of its
hyphen), or has more than one hyphen, the parser fails (`none`, modelling
the propagated `ValueError`) and returns no partial result; in particular
`parse ""` and `parse "a-b"` both fail. -/
theorem parse_page_numbers_fails_on_malformed :
    (∀ s : String, ∀ tok ∈ pySplit ',' s.data, badToken tok = true →
      parse_page_numbers s = none) ∧
    parse_page_numbers "" = none ∧ parse_page_numbers "a-b" = none := by
  refine ⟨?_, by decide, by decide⟩
  intro s tok hm hbad
  unfold parse_page_numbers
  rw [collectTokens_none hm (parseToken_bad hbad)]
  rfl

theorem parse_page_numbers_fails_on_malformed_witness :
    parse_page_numbers "1,,2" = none :=
  parse_page_numbers_fails_on_malformed.1 "1,,2" [] (by decide) (by decide)

/-- C7: the parser performs no bounds checking: every spec string whose
tokens are syntactically well-formed integers or ranges parses
successfully, whatever the magnitude of the values and with no document in
sight; in particular `parse "0"` succeeds and returns the negative index
`[-1]`. -/
theorem parse_page_numbers_no_bounds_check :
    (∀ s : String, (∀ tok ∈ pySplit ',' s.data, goodToken tok = true) →
      (parse_page_numbers s).isSome = true) ∧
    parse_page_numbers "0" = some [-1] := by
  refine ⟨?_, by decide⟩
  intro s h
  unfold parse_page_numbers
  have hsome := collectTokens_isSome (fun tok hm => parseToken_good (h tok hm))
  obtain ⟨L, hL⟩ := Option.isSome_iff_exists.mp hsome
  simp [hL]

theorem parse_page_numbers_no_bounds_check_witness :
    (parse_page_numbers "0,999999999,7-3").isSome = true :=
  parse_page_numbers_no_bounds_check.1 "0,999999999,7-3" (by decide)

/-- C1 counterexample: `parse "3-1"` does not fail with a `ParseError`; it
succeeds and returns the empty list, because `range(3, 2)` is empty. -/
theorem parse_inverted_range_counterexample :
    parse_page_numbers "3-1" = some [] := by decide

/-- C1 (amended): a range token whose first integer is greater than its
second does not make the parser fail; it expands to the empty range and
contributes no entries, so in particular `parse "3-1"` returns `[]`. -/
theorem inverted_range_token_expands_empty :
    ∀ (tok u v : List Char) (a b : Int),
      pySplit '-' (pyStrip tok) = [u, v] → pyInt? u = some a →
      pyInt? v = some b → b < a → parseToken tok = some [] := by
  intro tok u v a b hsp hu hv hab
  have hmem : '-' ∈ pyStrip tok := mem_of_pySplit_pair hsp
  simp only [parseToken]
  rw [if_pos hmem, hsp]
  have hnil : pyRangeStep a (b + 1) 1 = [] :=
    pyRangeStep_nil (by norm_num) (by omega)
  simp [hu, hv, hnil]

theorem inverted_range_token_expands_empty_witness :
    parseToken ['3', '-', '1'] = some [] :=
  inverted_range_token_expands_empty ['3', '-', '1'] ['3'] ['1'] 3 1
    (by decide) (by decide) (by decide) (by decide)

/-! ## Helper lemmas about the hex-color conversion -/

theorem hexVal_le_15 {c : Char} (h : isHexP c) : hexVal c ≤ 15 := by
  unfold hexVal
  rcases h with ⟨h1, h2⟩ | ⟨h1, h2⟩ | ⟨h1, h2⟩ <;> split_ifs <;> omega

theorem hex_char_ne {c : Char} (h : isHexP c) {b : Char} (hb : ¬ isHexP b) :
    c ≠ b :=
  fun he => hb (he ▸ h)

theorem hex_not_space {c : Char} (h : isHexP c) : isPySpace c = false := by
  have h48 : 48 ≤ c.toNat := by
    rcases h with ⟨h1, _⟩ | ⟨h1, _⟩ | ⟨h1, _⟩ <;> omega
  simp only [isPySpace, Bool.or_eq_false_iff, decide_eq_false_iff_not]
  omega

theorem pyIntBase16?_nil : pyIntBase16? [] = none := rfl

theorem pyHexAfterSign?_nil : pyHexAfterSign? [] = none := rfl

theorem pyHexAfterSign?_single (c : Char) :
    pyHexAfterSign? [c] = pyHexDigits? [c] := rfl

theorem pyHexDigits?_cons (c : Char) (cs : List Char) :
    pyHexDigits? (c :: cs) =
      if isHexP c then pyHexDigitsCore (hexVal c) cs else none := rfl

theorem pyHexDigitsCore_nil (acc : Nat) : pyHexDigitsCore acc [] = some acc :=
  rfl

theorem pyHexDigitsCore_cons_hex (acc : Nat) {c : Char} (hc : isHexP c)
    (cs : List Char) :
    pyHexDigitsCore acc (c :: cs) = pyHexDigitsCore (acc * 16 + hexVal c) cs := by
  rw [pyHexDigitsCore.eq_def]
  simp [hc]

theorem pyHexDigitsCore_single_bad (acc : Nat) (d : Char) (hd : ¬ isHexP d) :
    pyHexDigitsCore acc [d] = none := by
  rw [pyHexDigitsCore.eq_def]
  by_cases hdu : d = '_'
  · subst hdu
    simp [show ¬ isHexP '_' by decide]
  · simp [hd, hdu]

/-- Parsing a two-hex-digit slice gives the standard place-value reading. -/
theorem pyIntBase16?_pair {c d : Char} (hc : isHexP c) (hd : isHexP d) :
    pyIntBase16? [c, d] = some ((hexVal c * 16 + hexVal d : Nat) : Int) := by
  have hstrip : pyStrip [c, d] = [c, d] := by
    apply pyStrip_eq_self
    intro e he
    rcases List.mem_cons.mp he with rfl | he2
    · exact hex_not_space hc
    rcases List.mem_cons.mp he2 with rfl | he3
    · exact hex_not_space hd
    · cases he3
  have hnotpre : ¬(c = '0' ∧ (d = 'x' ∨ d = 'X')) := by
    rintro ⟨-, rfl | rfl⟩
    · exact absurd hd (by decide)
    · exact absurd hd (by decide)
  unfold pyIntBase16?
  rw [hstrip]
  simp only [pyHex16NoWs?]
  rw [if_neg (hex_char_ne hc (by decide)), if_neg (hex_char_ne hc (by decide))]
  simp only [pyHexAfterSign?]
  rw [if_neg hnotpre, pyHexDigits?_cons, if_pos hc, pyHexDigitsCore_cons_hex _ hd,
    pyHexDigitsCore_nil]
  rfl

/-- Any value Python's `int(·, 16)` extracts from a string of at most two
characters lies in `[-15, 255]`: at most two hex digits, or a sign and one
hex digit. -/
theorem pyIntBase16?_short {l : List Char} (hlen : l.length ≤ 2) {n : Int}
    (h : pyIntBase16? l = some n) : -15 ≤ n ∧ n ≤ 255 := by
  unfold pyIntBase16? at h
  have hst : (pyStrip l).length ≤ 2 := le_trans (pyStrip_length_le l) hlen
  rcases hq : pyStrip l with _ | ⟨c, _ | ⟨d, _ | ⟨e, r⟩⟩⟩
  · rw [hq] at h
    cases h
  · -- one character
    rw [hq] at h
    simp only [pyHex16NoWs?] at h
    split_ifs at h with hplus hminus
    · rw [pyHexAfterSign?_nil] at h
      simp at h
    · rw [pyHexAfterSign?_nil] at h
      simp at h
    · by_cases hc : isHexP c
      · rw [pyHexAfterSign?_single, pyHexDigits?_cons, if_pos hc,
          pyHexDigitsCore_nil] at h
        simp at h
        have := hexVal_le_15 hc
        omega
      · rw [pyHexAfterSign?_single, pyHexDigits?_cons, if_neg hc] at h
        simp at h
  · -- two characters
    rw [hq] at h
    simp only [pyHex16NoWs?] at h
    split_ifs at h with hplus hminus
    · -- leading plus sign, one hex digit
      by_cases hd : isHexP d
      · rw [pyHexAfterSign?_single, pyHexDigits?_cons, if_pos hd,
          pyHexDigitsCore_nil] at h
        simp at h
        have := hexVal_le_15 hd
        omega
      · rw [pyHexAfterSign?_single, pyHexDigits?_cons, if_neg hd] at h
        simp at h
    · -- leading minus sign, one hex digit
      by_cases hd : isHexP d
      · rw [pyHexAfterSign?_single, pyHexDigits?_cons, if_pos hd,
          pyHexDigitsCore_nil] at h
        simp at h
        have := hexVal_le_15 hd
        omega
      · rw [pyHexAfterSign?_single, pyHexDigits?_cons, if_neg hd] at h
        simp at h
    · -- two hex digits (or a dead `0x` prefix)
      simp only [pyHexAfterSign?] at h
      split_ifs at h with hpre
      · exact Option.noConfusion h
      · by_cases hc : isHexP c
        · by_cases hd : isHexP d
          · rw [pyHexDigits?_cons, if_pos hc, pyHexDigitsCore_cons_hex _ hd,
              pyHexDigitsCore_nil] at h
            simp at h
            have h15c := hexVal_le_15 hc
            have h15d := hexVal_le_15 hd
            omega
          · rw [pyHexDigits?_cons, if_pos hc,
              pyHexDigitsCore_single_bad _ _ hd] at h
            simp at h
        · rw [pyHexDigits?_cons, if_neg hc] at h
          simp at h
  · -- three or more characters: contradicts the length bound
    rw [hq] at hst
    simp at hst

/-! ## Claim theorems: the hex-color conversion -/

/-- C5: for every string of exactly six hex digits, with or without one
leading `#`, the conversion returns the three channels obtained by reading
consecutive 2-hex-digit place values, each divided by 255; in particular
`"#FFFFFF"` yields `(1, 1, 1)` and `"000000"` yields `(0, 0, 0)`. -/
theorem hex_to_rgba_six_digits :
    (∀ c1 c2 c3 c4 c5 c6 : Char, isHexP c1 → isHexP c2 → isHexP c3 →
      isHexP c4 → isHexP c5 → isHexP c6 →
      ∀ s : String, (s.data = [c1, c2, c3, c4, c5, c6] ∨
        s.data = '#' :: [c1, c2, c3, c4, c5, c6]) →
      hex_to_rgba s = some
        (((hexVal c1 * 16 + hexVal c2 : Nat) : ℚ) / 255,
          ((hexVal c3 * 16 + hexVal c4 : Nat) : ℚ) / 255,
          ((hexVal c5 * 16 + hexVal c6 : Nat) : ℚ) / 255)) ∧
    hex_to_rgba "#FFFFFF" = some (1, 1, 1) ∧
    hex_to_rgba "000000" = some (0, 0, 0) := by
  refine ⟨?_, ?_, ?_⟩
  · intro c1 c2 c3 c4 c5 c6 h1 h2 h3 h4 h5 h6 s hs
    have hc1 : ¬(c1 = '#') := hex_char_ne h1 (by decide)
    have hlh : pyLstripHash s.data = [c1, c2, c3, c4, c5, c6] := by
      rcases hs with hs | hs <;> rw [hs] <;> simp [pyLstripHash, hc1]
    have e1 : pySlice (pyLstripHash s.data) 0 2 = [c1, c2] := by rw [hlh]; rfl
    have e2 : pySlice (pyLstripHash s.data) 2 2 = [c3, c4] := by rw [hlh]; rfl
    have e3 : pySlice (pyLstripHash s.data) 4 2 = [c5, c6] := by rw [hlh]; rfl
    rw [hex_to_rgba_eq s ((hexVal c1 * 16 + hexVal c2 : Nat) : Int)
      ((hexVal c3 * 16 + hexVal c4 : Nat) : Int)
      ((hexVal c5 * 16 + hexVal c6 : Nat) : Int)
      (by rw [e1]; exact pyIntBase16?_pair h1 h2)
      (by rw [e2]; exact pyIntBase16?_pair h3 h4)
      (by rw [e3]; exact pyIntBase16?_pair h5 h6)]
    simp [Int.cast_natCast]
  · rw [hex_to_rgba_eq "#FFFFFF" 255 255 255 (by decide) (by decide)
      (by decide)]
    norm_num
  · rw [hex_to_rgba_eq "000000" 0 0 0 (by decide) (by decide) (by decide)]
    norm_num

theorem hex_to_rgba_six_digits_witness :
    hex_to_rgba "#FFFFFF" = some
      (((hexVal 'F' * 16 + hexVal 'F' : Nat) : ℚ) / 255,
        ((hexVal 'F' * 16 + hexVal 'F' : Nat) : ℚ) / 255,
        ((hexVal 'F' * 16 + hexVal 'F' : Nat) : ℚ) / 255) :=
  hex_to_rgba_six_digits.1 'F' 'F' 'F' 'F' 'F' 'F' (by decide) (by decide)
    (by decide) (by decide) (by decide) (by decide) "#FFFFFF"
    (Or.inr (by decide))

/-- C3 counterexample: `"FFFFF"` is not exactly six hex digits after
stripping an optional `#`, yet the conversion succeeds, with a partial
third channel read from the single trailing digit. -/
theorem hex_to_rgba_five_digits_succeed :
    hex_to_rgba "FFFFF" = some (1, 1, 15 / 255) := by
  rw [hex_to_rgba_eq "FFFFF" 255 255 15 (by decide) (by decide) (by decide)]
  norm_num

/-- C3 (amended): the conversion fails whenever one of the three
2-character slices is not a base-16 integer — in particular for every
string shorter than five characters after stripping leading `#`s, and for
`"#ZZZZZZ"` and `"#FFF"` — but not for every string that differs from six
hex digits (see the five-digit counterexample). -/
theorem hex_to_rgba_failure_amended :
    (∀ s : String, (pyLstripHash s.data).length ≤ 4 → hex_to_rgba s = none) ∧
    hex_to_rgba "#ZZZZZZ" = none ∧ hex_to_rgba "#FFF" = none := by
  refine ⟨?_, by decide, by decide⟩
  intro s hlen
  have hsl : pySlice (pyLstripHash s.data) 4 2 = [] := by
    unfold pySlice
    rw [List.drop_eq_nil_of_le hlen]
    rfl
  simp only [hex_to_rgba]
  rw [hsl, pyIntBase16?_nil]
  cases ho1 : pyIntBase16? (pySlice (pyLstripHash s.data) 0 2) <;>
    cases ho2 : pyIntBase16? (pySlice (pyLstripHash s.data) 2 2) <;>
      simp [ho1, ho2]

theorem hex_to_rgba_failure_amended_witness :
    hex_to_rgba "ab" = none :=
  hex_to_rgba_failure_amended.1 "ab" (by decide)

/-- C10 counterexample: `hex_to_rgba "-1-2-3"` succeeds — each slice is a
signed digit — and returns a negative first channel, which is not of the
form `n / 255` with `0 ≤ n` and lies outside `[0, 1]`. -/
theorem hex_to_rgba_negative_channel :
    hex_to_rgba "-1-2-3" = some (-1 / 255, -2 / 255, -3 / 255) ∧
    (-1 / 255 : ℚ) < 0 := by
  constructor
  · rw [hex_to_rgba_eq "-1-2-3" (-1) (-2) (-3) (by decide) (by decide)
      (by decide)]
    norm_num
  · norm_num

theorem channel_bound {n : Int} (hlo : -15 ≤ n) (hhi : n ≤ 255) :
    (-15 / 255 : ℚ) ≤ (n : ℚ) / 255 ∧ (n : ℚ) / 255 ≤ 1 := by
  have h255 : (0 : ℚ) < 255 := by norm_num
  constructor
  · exact (div_le_div_iff_of_pos_right h255).mpr (by exact_mod_cast hlo)
  · have := (div_le_div_iff_of_pos_right h255).mpr
      (show (n : ℚ) ≤ 255 by exact_mod_cast hhi)
    simpa using this

/-- C10 (amended): whenever the conversion succeeds, every channel is an
exact rational `n / 255` with `-15 ≤ n ≤ 255`, hence lies in
`[-15/255, 1]`; the lower bound `0` claimed by the spec does not hold (a
slice may carry a minus sign), only the upper bound `1` does. -/
theorem hex_to_rgba_channel_bounds :
    ∀ (s : String) (r g b : ℚ), hex_to_rgba s = some (r, g, b) →
      ((∃ n : Int, r = (n : ℚ) / 255 ∧ -15 ≤ n ∧ n ≤ 255) ∧
        (∃ n : Int, g = (n : ℚ) / 255 ∧ -15 ≤ n ∧ n ≤ 255) ∧
        (∃ n : Int, b = (n : ℚ) / 255 ∧ -15 ≤ n ∧ n ≤ 255)) ∧
      ((-15 / 255 : ℚ) ≤ r ∧ r ≤ 1) ∧ ((-15 / 255 : ℚ) ≤ g ∧ g ≤ 1) ∧
      ((-15 / 255 : ℚ) ≤ b ∧ b ≤ 1) := by
  intro s r g b h
  have hlen0 : (pySlice (pyLstripHash s.data) 0 2).length ≤ 2 := by
    unfold pySlice
    simp [List.length_take]
  have hlen2 : (pySlice (pyLstripHash s.data) 2 2).length ≤ 2 := by
    unfold pySlice
    simp [List.length_take]
  have hlen4 : (pySlice (pyLstripHash s.data) 4 2).length ≤ 2 := by
    unfold pySlice
    simp [List.length_take]
  simp only [hex_to_rgba] at h
  rcases ho1 : pyIntBase16? (pySlice (pyLstripHash s.data) 0 2) with _ | n1
  · rw [ho1] at h
    simp at h
  rcases ho2 : pyIntBase16? (pySlice (pyLstripHash s.data) 2 2) with _ | n2
  · rw [ho1, ho2] at h
    simp at h
  rcases ho3 : pyIntBase16? (pySlice (pyLstripHash s.data) 4 2) with _ | n3
  · rw [ho1, ho2, ho3] at h
    simp at h
  rw [ho1, ho2, ho3] at h
  simp at h
  obtain ⟨hr, hg, hb⟩ := h
  obtain ⟨hlo1, hhi1⟩ := pyIntBase16?_short hlen0 ho1
  obtain ⟨hlo2, hhi2⟩ := pyIntBase16?_short hlen2 ho2
  obtain ⟨hlo3, hhi3⟩ := pyIntBase16?_short hlen4 ho3
  subst hr hg hb
  exact ⟨⟨⟨n1, rfl, hlo1, hhi1⟩, ⟨n2, rfl, hlo2, hhi2⟩, ⟨n3, rfl, hlo3, hhi3⟩⟩,
    channel_bound hlo1 hhi1, channel_bound hlo2 hhi2, channel_bound hlo3 hhi3⟩

theorem hex_to_rgba_channel_bounds_witness :
    ((∃ n : Int, (1 : ℚ) = (n : ℚ) / 255 ∧ -15 ≤ n ∧ n ≤ 255) ∧
      (∃ n : Int, (1 : ℚ) = (n : ℚ) / 255 ∧ -15 ≤ n ∧ n ≤ 255) ∧
      (∃ n : Int, (1 : ℚ) = (n : ℚ) / 255 ∧ -15 ≤ n ∧ n ≤ 255)) ∧
    ((-15 / 255 : ℚ) ≤ 1 ∧ (1 : ℚ) ≤ 1) ∧
    ((-15 / 255 : ℚ) ≤ 1 ∧ (1 : ℚ) ≤ 1) ∧
    ((-15 / 255 : ℚ) ≤ 1 ∧ (1 : ℚ) ≤ 1) :=
  hex_to_rgba_channel_bounds "#FFFFFF" 1 1 1
    (by rw [hex_to_rgba_eq "#FFFFFF" 255 255 255 (by decide) (by decide)
        (by decide)]
        norm_num)

/-! ## Claim theorems: the watermark grid -/

theorem mem_draw_watermark_grid {sx sy : Nat} {w h x y : Int} :
    (x, y) ∈ draw_watermark_grid sx sy w h ↔
      x ∈ pyRangeStep (-100) (w + 100) sx ∧
      y ∈ pyRangeStep (-100) (h + 100) sy := by
  unfold draw_watermark_grid
  constructor
  · intro hm
    rcases List.mem_flatMap.mp hm with ⟨x0, hx0, hy⟩
    rcases List.mem_map.mp hy with ⟨y0, hy0, heq⟩
    cases heq
    exact ⟨hx0, hy0⟩
  · rintro ⟨hx, hy⟩
    exact List.mem_flatMap.mpr ⟨x, hx, List.mem_map.mpr ⟨y, hy, rfl⟩⟩

/-- C2 counterexample: on a 100 × 100 page the tile origins are exactly
`{-100, 50} × {-100, 0, 100}`, so no origin has an x value reaching the
page width 100 — x coverage stops 50 points short, because the overflow
margin (100) is smaller than `step_x` (150). -/
theorem draw_watermark_grid_counterexample :
    draw_watermark_grid 150 100 100 100 =
      [(-100, -100), (-100, 0), (-100, 100), (50, -100), (50, 0), (50, 100)] ∧
    ¬ ∃ p ∈ draw_watermark_grid 150 100 100 100, (100 : Int) ≤ p.1 := by
  constructor
  · decide
  · decide

/-- C2 (amended): for every `pageWidth ≥ 0` and `pageHeight ≥ 0` the tile
origins of the watermark grid (steps 150 × 100) start at `(-100, -100)`,
reach at least `pageWidth - 50` in x and at least `pageHeight` in y, and
leave no unstamped band wider than `step_x = 150` or taller than
`step_y = 100` within the page bounds; x is not guaranteed to reach
`pageWidth` itself, only to come within `step_x - 100 = 50` of it. -/
theorem draw_watermark_grid_coverage :
    ∀ w h : Int, 0 ≤ w → 0 ≤ h →
      ((-100, -100) ∈ draw_watermark_grid 150 100 w h) ∧
      (∃ p ∈ draw_watermark_grid 150 100 w h, w - 50 ≤ p.1) ∧
      (∃ p ∈ draw_watermark_grid 150 100 w h, h ≤ p.2) ∧
      (∀ t : Int, -100 ≤ t → t ≤ w →
        ∃ p ∈ draw_watermark_grid 150 100 w h, t - 150 < p.1 ∧ p.1 ≤ t) ∧
      (∀ t : Int, -100 ≤ t → t ≤ h →
        ∃ p ∈ draw_watermark_grid 150 100 w h, t - 100 < p.2 ∧ p.2 ≤ t) := by
  intro w h hw hh
  have hx0 : (-100 : Int) ∈ pyRangeStep (-100) (w + 100) 150 :=
    mem_pyRangeStep.mpr ⟨0, by omega, by omega⟩
  have hy0 : (-100 : Int) ∈ pyRangeStep (-100) (h + 100) 100 :=
    mem_pyRangeStep.mpr ⟨0, by omega, by omega⟩
  refine ⟨mem_draw_watermark_grid.mpr ⟨hx0, hy0⟩, ?_, ?_, ?_, ?_⟩
  · refine ⟨(-100 + ((150 * ((w + 349).toNat / 150 - 1) : Nat) : Int), -100),
      mem_draw_watermark_grid.mpr
        ⟨mem_pyRangeStep.mpr ⟨(w + 349).toNat / 150 - 1, by omega, rfl⟩, hy0⟩,
      by omega⟩
  · refine ⟨(-100, -100 + ((100 * ((h + 299).toNat / 100 - 1) : Nat) : Int)),
      mem_draw_watermark_grid.mpr
        ⟨hx0, mem_pyRangeStep.mpr ⟨(h + 299).toNat / 100 - 1, by omega, rfl⟩⟩,
      by omega⟩
  · intro t ht htw
    refine ⟨(-100 + ((150 * ((t + 100).toNat / 150) : Nat) : Int), -100),
      mem_draw_watermark_grid.mpr
        ⟨mem_pyRangeStep.mpr ⟨(t + 100).toNat / 150, by omega, rfl⟩, hy0⟩,
      by omega, by omega⟩
  · intro t ht hth
    refine ⟨(-100, -100 + ((100 * ((t + 100).toNat / 100) : Nat) : Int)),
      mem_draw_watermark_grid.mpr
        ⟨hx0, mem_pyRangeStep.mpr ⟨(t + 100).toNat / 100, by omega, rfl⟩⟩,
      by omega, by omega⟩

theorem draw_watermark_grid_coverage_witness :
    ((-100, -100) ∈ draw_watermark_grid 150 100 612 792) ∧
    (∃ p ∈ draw_watermark_grid 150 100 612 792, (612 : Int) - 50 ≤ p.1) ∧
    (∃ p ∈ draw_watermark_grid 150 100 612 792, (792 : Int) ≤ p.2) ∧
    (∀ t : Int, -100 ≤ t → t ≤ 612 →
      ∃ p ∈ draw_watermark_grid 150 100 612 792, t - 150 < p.1 ∧ p.1 ≤ t) ∧
    (∀ t : Int, -100 ≤ t → t ≤ 792 →
      ∃ p ∈ draw_watermark_grid 150 100 612 792, t - 100 < p.2 ∧ p.2 ≤ t) :=
  draw_watermark_grid_coverage 612 792 (by norm_num) (by norm_num)

/-! ## Claim theorems: the watermark merge -/

/-- C8: the watermark merge applies the first page of the watermark
document to every page of the target with `over = false`, so every output
page is the watermark content with the original page content placed over
it (the original content survives unaltered as the top layer), and the
output has exactly as many pages as the input. -/
theorem merge_watermark_into_pdf_background :
    ∀ (α : Type) (pdf : List (List α)) (w0 : List α) (ws : List (List α)),
      merge_watermark_into_pdf pdf (w0 :: ws) =
        some (pdf.map (fun page => merge_page page w0 false)) ∧
      (∀ page : List α, merge_page page w0 false = w0 ++ page) ∧
      (pdf.map (fun page => merge_page page w0 false)).length = pdf.length := by
  intro α pdf w0 ws
  refine ⟨rfl, fun page => rfl, ?_⟩
  exact List.length_map pdf _

/-! ## Claim theorems: the extraction dispatch -/

/-- C9: the literal `"all"` is never handed to the page-range parser: with
spec `"all"`, text extraction folds over every page directly and its
result does not depend on the parser at all (it is the same for every
parser function), and likewise for image extraction; for any other spec
the result is obtained by invoking the parser and indexing with its
output. -/
theorem extract_all_bypasses_parsing :
    (∀ (p q : String → Option (List Int)) (pages : List (String × String))
      (mode : String),
      extract_textWith p pages "all" mode = extract_textWith q pages "all" mode) ∧
    (∀ (pages : List (String × String)) (mode : String),
      extract_text pages "all" mode = some (allText pages mode)) ∧
    (∀ (pages : List (String × String)) (spec mode : String), spec ≠ "all" →
      extract_text pages spec mode =
        (parse_page_numbers spec).bind (textFromIndices pages)) ∧
    (∀ (p q : String → Option (List Int))
      (pages : List (List (String × String))),
      extract_imagesWith p pages "all" = extract_imagesWith q pages "all") ∧
    (∀ pages : List (List (String × String)),
      extract_images pages "all" = some (allImages pages)) ∧
    (∀ (pages : List (List (String × String))) (spec : String), spec ≠ "all" →
      extract_images pages spec =
        (parse_page_numbers spec).bind (imagesFromIndices pages)) := by
  refine ⟨?_, ?_, ?_, ?_, ?_, ?_⟩
  · intro p q pages mode
    simp [extract_textWith]
  · intro pages mode
    simp [extract_text, extract_textWith]
  · intro pages spec mode hne
    simp [extract_text, extract_textWith, hne]
  · intro p q pages
    simp [extract_imagesWith]
  · intro pages
    simp [extract_images, extract_imagesWith]
  · intro pages spec hne
    simp [extract_images, extract_imagesWith, hne]

theorem extract_all_bypasses_parsing_witness :
    extract_text [("a", "A"), ("b", "B")] "2" "plain" =
      (parse_page_numbers "2").bind
        (textFromIndices [("a", "A"), ("b", "B")]) :=
  extract_all_bypasses_parsing.2.2.1 [("a", "A"), ("b", "B")] "2" "plain"
    (by decide)

end PdfWorkdesk
